import Mathlib

/-!
# Verification of the wasm-tools component/WIT tooling specification

The repository's visible sources are the test harness
(`crates/wit-component/tests/components.rs`) and the fuzz target
(`fuzz/src/roundtrip_wit.rs`); the behavioural components they exercise
(the WIT package codec, the metadata codec, the linker, the component
encoder and the decoder/printer) live outside the snapshot.  Following the
specification, these components are modelled here as executable Lean
definitions: an interface graph (`Resolve`), a two-version binary package
codec (`encodeWit` / `decodeWit`), a textual printer and parser for
packages, a metadata codec with producers records, a module linker, and a
component encoder with a structural validation oracle and a top-level
`decodeWasm` classifier.

Bytes are modelled as `List Nat` (one `Nat` per wire unit); byte-identical
output is list equality.
-/

namespace WasmTools

/-- A byte string of the wire format, one `Nat` per wire unit. -/
abbrev Bytes := List Nat

/-! ## Interface graph data model

Modelled from the spec: "a collection of packages, each owning zero or more
interfaces and worlds"; identities are arena indices (`Nat` positions),
"all cross-references are index-based".  Function signatures carry typed
parameter/result lists (type codes as `Nat`); interfaces may reference
interfaces of other packages through index pairs (`uses`). -/

/-- A typed function signature: a name plus parameter and result type codes. -/
structure FuncSig where
  name : String
  params : List Nat
  results : List Nat
  deriving DecidableEq, Repr

/-- A named world: required imports and provided exports. -/
structure World where
  name : String
  imports : List String
  exports : List String
  deriving DecidableEq, Repr

/-- A named interface: typed function signatures plus cross-package
references (`uses`), each a (package index, interface index) pair. -/
structure Iface where
  name : String
  funcs : List FuncSig
  uses : List (Nat × Nat)
  deriving DecidableEq, Repr

/-- A package: a name owning zero or more worlds and interfaces. -/
structure Package where
  name : String
  worlds : List World
  interfaces : List Iface
  deriving DecidableEq, Repr

/-- The interface graph: an arena of packages addressed by position. -/
structure Resolve where
  packages : List Package
  deriving DecidableEq, Repr

/-- A world identity: (owning package index, world index inside it). -/
abbrev WorldRef := Nat × Nat

/-- `true` when the package at index `pkg` has zero worlds and zero
interfaces (the emptiness the v2 layout cannot represent). -/
def pkgIsEmpty (r : Resolve) (pkg : Nat) : Bool :=
  match r.packages[pkg]? with
  | some p => p.worlds.isEmpty && p.interfaces.isEmpty
  | none => false

/-- Every cross-package `uses` reference of every interface resolves inside
the same graph (spec: "every referenced identity must resolve within the
same graph instance"). -/
def refsOk (r : Resolve) : Bool :=
  r.packages.all fun p =>
    p.interfaces.all fun i =>
      i.uses.all fun u =>
        match r.packages[u.1]? with
        | some q => decide (u.2 < q.interfaces.length)
        | none => false

/-- A world identity resolves inside the graph. -/
def worldRefOk (r : Resolve) (w : WorldRef) : Bool :=
  match r.packages[w.1]? with
  | some p => decide (w.2 < p.worlds.length)
  | none => false

/-! ## Byte-level serializers -/

/-- Encode a natural number as one wire unit. -/
def encNat (n : Nat) : Bytes := [n]

/-- Encode a list: a length header followed by the encoded elements. -/
def encList (f : α → Bytes) (xs : List α) : Bytes :=
  encNat xs.length ++ xs.flatMap f

/-- Encode a character as its code point. -/
def encChar (c : Char) : Bytes := [c.toNat]

/-- Encode a string as a length-prefixed sequence of code points. -/
def encString (s : String) : Bytes := encList encChar s.data

/-- Encode a pair by concatenating the component encodings. -/
def encPair (f : α → Bytes) (g : β → Bytes) (p : α × β) : Bytes :=
  f p.1 ++ g p.2

/-- Encode a function signature. -/
def encSig (s : FuncSig) : Bytes :=
  encString s.name ++ encList encNat s.params ++ encList encNat s.results

/-- Encode a world. -/
def encWorld (w : World) : Bytes :=
  encString w.name ++ encList encString w.imports ++ encList encString w.exports

/-- Encode an interface. -/
def encIface (i : Iface) : Bytes :=
  encString i.name ++ encList encSig i.funcs ++
    encList (encPair encNat encNat) i.uses

/-- Encode a package. -/
def encPackage (p : Package) : Bytes :=
  encString p.name ++ encList encWorld p.worlds ++ encList encIface p.interfaces

/-- Encode a whole interface graph. -/
def encResolve (r : Resolve) : Bytes := encList encPackage r.packages

/-! ## Byte-level parsers -/

/-- Parse one wire unit. -/
def parseNat : Bytes → Option (Nat × Bytes)
  | [] => none
  | n :: bs => some (n, bs)

/-- Parse exactly `n` elements with `p`. -/
def parseListN (p : Bytes → Option (α × Bytes)) : Nat → Bytes → Option (List α × Bytes)
  | 0, bs => some ([], bs)
  | n + 1, bs =>
    match p bs with
    | none => none
    | some (x, bs1) =>
      match parseListN p n bs1 with
      | none => none
      | some (xs, bs2) => some (x :: xs, bs2)

/-- Parse a length-prefixed list. -/
def parseList (p : Bytes → Option (α × Bytes)) (bs : Bytes) :
    Option (List α × Bytes) :=
  match parseNat bs with
  | none => none
  | some (n, bs1) => parseListN p n bs1

/-- Parse a character from its code point. -/
def parseChar (bs : Bytes) : Option (Char × Bytes) :=
  match parseNat bs with
  | none => none
  | some (n, bs1) => some (Char.ofNat n, bs1)

/-- Parse a length-prefixed string. -/
def parseString (bs : Bytes) : Option (String × Bytes) :=
  match parseList parseChar bs with
  | none => none
  | some (cs, bs1) => some (String.mk cs, bs1)

/-- Parse a pair. -/
def parsePair (p : Bytes → Option (α × Bytes)) (q : Bytes → Option (β × Bytes))
    (bs : Bytes) : Option ((α × β) × Bytes) :=
  match p bs with
  | none => none
  | some (a, bs1) =>
    match q bs1 with
    | none => none
    | some (b, bs2) => some ((a, b), bs2)

/-- Parse a function signature. -/
def parseSig (bs : Bytes) : Option (FuncSig × Bytes) :=
  match parseString bs with
  | none => none
  | some (nm, bs1) =>
    match parseList parseNat bs1 with
    | none => none
    | some (ps, bs2) =>
      match parseList parseNat bs2 with
      | none => none
      | some (rs, bs3) => some (⟨nm, ps, rs⟩, bs3)

/-- Parse a world. -/
def parseWorld (bs : Bytes) : Option (World × Bytes) :=
  match parseString bs with
  | none => none
  | some (nm, bs1) =>
    match parseList parseString bs1 with
    | none => none
    | some (is, bs2) =>
      match parseList parseString bs2 with
      | none => none
      | some (es, bs3) => some (⟨nm, is, es⟩, bs3)

/-- Parse an interface. -/
def parseIface (bs : Bytes) : Option (Iface × Bytes) :=
  match parseString bs with
  | none => none
  | some (nm, bs1) =>
    match parseList parseSig bs1 with
    | none => none
    | some (fs, bs2) =>
      match parseList (parsePair parseNat parseNat) bs2 with
      | none => none
      | some (us, bs3) => some (⟨nm, fs, us⟩, bs3)

/-- Parse a package. -/
def parsePackage (bs : Bytes) : Option (Package × Bytes) :=
  match parseString bs with
  | none => none
  | some (nm, bs1) =>
    match parseList parseWorld bs1 with
    | none => none
    | some (ws, bs2) =>
      match parseList parseIface bs2 with
      | none => none
      | some (is, bs3) => some (⟨nm, ws, is⟩, bs3)

/-- Parse a whole interface graph. -/
def parseResolve (bs : Bytes) : Option (Resolve × Bytes) :=
  match parseList parsePackage bs with
  | none => none
  | some (ps, bs1) => some (⟨ps⟩, bs1)

/-! ## Package codec

Modelled from the spec: the WIT package codec
(`wit_component::encode` / package decoding, not under `src/`):
"encode(version: optional bool, graph, package) -> bytes" with "two
mutually incompatible layouts selected by the version flag, differentiated
by a leading discriminator"; the v2 layout cannot represent an empty
package, and choosing it for one is "rejected or silently corrected to the
other version" (modelled as silent correction, matching the fuzz target's
choice of v1 for empty packages); if `version` is unspecified the choice
is automatic and deterministic, never v2 for an empty package. -/

/-- The version actually used by the encoder: the caller's choice, silently
corrected to v1 (`false`) when the package is empty; automatic choice when
unspecified (v2 unless empty). -/
def chosenVersion (v : Option Bool) (r : Resolve) (pkg : Nat) : Bool :=
  match v with
  | some b => b && !(pkgIsEmpty r pkg)
  | none => !(pkgIsEmpty r pkg)

/-- Leading discriminator of the v1 package layout. -/
def v1Tag : Nat := 1

/-- Leading discriminator of the v2 package layout. -/
def v2Tag : Nat := 2

/-- Leading discriminator of a composite component artifact. -/
def componentTag : Nat := 0

/-- Package codec encoding.  Fails when the selected package identity or a
cross-package reference does not resolve within the input graph. -/
def encodeWit (v : Option Bool) (r : Resolve) (pkg : Nat) : Except String Bytes :=
  if refsOk r = true ∧ pkg < r.packages.length then
    .ok (if chosenVersion v r pkg then
           v2Tag :: (encNat pkg ++ encResolve r)
         else
           v1Tag :: (encResolve r ++ encNat pkg))
  else
    .error "package has unresolved cross-package references"

/-- Parse path for the v2 layout: package index first, then the graph. -/
def decodeWitV2 (rest : Bytes) : Except String (Resolve × Nat) :=
  match parseNat rest with
  | some (pkg, rest1) =>
    (match parseResolve rest1 with
     | some (r, []) =>
       if refsOk r = true ∧ pkg < r.packages.length ∧ pkgIsEmpty r pkg = false then
         .ok (r, pkg)
       else
         .error "corrupt v2 package payload"
     | _ => .error "truncated v2 package")
  | none => .error "truncated v2 package"

/-- Parse path for the v1 layout: the graph first, then the package index. -/
def decodeWitV1 (rest : Bytes) : Except String (Resolve × Nat) :=
  match parseResolve rest with
  | some (r, rest1) =>
    (match parseNat rest1 with
     | some (pkg, []) =>
       if refsOk r = true ∧ pkg < r.packages.length then
         .ok (r, pkg)
       else
         .error "corrupt v1 package payload"
     | _ => .error "truncated v1 package")
  | none => .error "truncated v1 package"

/-- Package codec decoding: inspects the leading discriminator, follows the
matching parse path, and rejects corrupt, truncated or dangling input. -/
def decodeWit (bs : Bytes) : Except String (Resolve × Nat) :=
  match bs with
  | [] => .error "empty input"
  | t :: rest =>
    if t = v2Tag then decodeWitV2 rest
    else if t = v1Tag then decodeWitV1 rest
    else .error "unrecognized outer structure"

/-! ## Producers records

Modelled from the spec: "a mapping from a provenance field name to a
mapping from tool name to version string, accumulated additively across
every encoding/linking stage"; encoding "never removes or overwrites an
existing tool entry; it only appends the current tool's own entry under
its own field". -/

/-- A producers record: provenance field name paired with its (tool,
version) entries. -/
abbrev Producers := List (String × List (String × String))

/-- A (field, tool, version) entry is present in a producers record. -/
def entryMem (p : Producers) (f t v : String) : Prop :=
  ∃ l, (f, l) ∈ p ∧ (t, v) ∈ l

/-- Append one tool entry under field `f`, keeping every existing entry. -/
def addFieldEntry (p : Producers) (f t v : String) : Producers :=
  if (p.map Prod.fst).contains f then
    p.map fun q => if q.1 = f then (q.1, q.2 ++ [(t, v)]) else q
  else
    p ++ [(f, [(t, v)])]

/-- The provenance field this tool writes under. -/
def producersField : String := "processed-by"

/-- This tool's name in producers records. -/
def toolName : String := "wit-component"

/-- This tool's version string (the harness's CARGO_PKG_VERSION). -/
def toolVersion : String := "1.0.0"

/-! ## Metadata codec

Modelled from the spec: the metadata codec (`wit_component::metadata`, not
under `src/`): "encode(graph, world, string-encoding, optional producers)
-> bytes", "decode(bytes) -> (graph, world, producers)"; the string
encoding is recorded verbatim; producers propagate byte-for-byte.  The
dependency-closure slicing of the graph is modelled as carrying the whole
graph with the world identity (identities are positional, so decoded
identities coincide with fresh positional ones). -/

/-- String encodings recorded by the metadata codec. -/
inductive StrEncoding
  | utf8
  | utf16
  | compactUtf16
  deriving DecidableEq, Repr

/-- Encode a string-encoding marker. -/
def encStrEnc : StrEncoding → Bytes
  | .utf8 => [0]
  | .utf16 => [1]
  | .compactUtf16 => [2]

/-- Parse a string-encoding marker. -/
def parseStrEnc : Bytes → Option (StrEncoding × Bytes)
  | 0 :: r => some (.utf8, r)
  | 1 :: r => some (.utf16, r)
  | 2 :: r => some (.compactUtf16, r)
  | _ => none

/-- Encode a producers record. -/
def encProducers (p : Producers) : Bytes :=
  encList (encPair encString (encList (encPair encString encString))) p

/-- Parse a producers record. -/
def parseProducers (bs : Bytes) : Option (Producers × Bytes) :=
  parseList (parsePair parseString (parseList (parsePair parseString parseString))) bs

/-- Metadata codec encoding.  Fails when the world identity does not
resolve within the given graph. -/
def metadataEncode (r : Resolve) (w : WorldRef) (se : StrEncoding)
    (producers : Option Producers) : Except String Bytes :=
  if worldRefOk r w = true ∧ refsOk r = true then
    .ok (encResolve r ++ encNat w.1 ++ encNat w.2 ++ encStrEnc se ++
         encProducers (producers.getD []))
  else
    .error "world identity does not resolve in the given graph"

/-- Metadata codec decoding. -/
def metadataDecode (bs : Bytes) :
    Except String (Resolve × WorldRef × StrEncoding × Producers) :=
  match parseResolve bs with
  | none => .error "corrupt metadata graph"
  | some (r, bs1) =>
    match parseNat bs1 with
    | none => .error "truncated metadata"
    | some (wp, bs2) =>
      match parseNat bs2 with
      | none => .error "truncated metadata"
      | some (wi, bs3) =>
        match parseStrEnc bs3 with
        | none => .error "unknown string encoding"
        | some (se, bs4) =>
          match parseProducers bs4 with
          | none => .error "corrupt producers record"
          | some (p, []) =>
            if worldRefOk r (wp, wi) = true ∧ refsOk r = true then
              .ok (r, (wp, wi), se, p)
            else
              .error "world identity does not resolve in the decoded graph"
          | some _ => .error "dangling bytes after metadata"

/-! ## Composite artifacts and the component encoder

Modelled from the spec: the component encoder (`ComponentEncoder`, not
under `src/`): a composite binary "whose outer structure nests one or more
inner modules as children; the first child is, by contract, the primary
module"; "an auxiliary section named for interface-type metadata is
attached to that first child"; with `validate` set, the bytes must pass
the excluded component-aware validation oracle before being returned,
and a failure becomes an encoder error carrying the oracle's diagnostic. -/

/-- A core module nested in a composite artifact: opaque body bytes plus
an optional interface-type metadata section. -/
structure CoreModule where
  body : Bytes
  meta : Option Bytes
  deriving DecidableEq, Repr

/-- A composite component artifact: child modules, the first the primary. -/
structure Component where
  children : List CoreModule
  deriving DecidableEq, Repr

/-- Encode an optional value with a presence marker. -/
def encOption (f : α → Bytes) : Option α → Bytes
  | none => [0]
  | some x => 1 :: f x

/-- Parse an optional value. -/
def parseOption (p : Bytes → Option (α × Bytes)) : Bytes → Option (Option α × Bytes)
  | 0 :: r => some (none, r)
  | 1 :: r =>
    (match p r with
     | some (x, r1) => some (some x, r1)
     | none => none)
  | _ => none

/-- Encode an embedded byte blob. -/
def encBlob (b : Bytes) : Bytes := encList encNat b

/-- Parse an embedded byte blob. -/
def parseBlob (bs : Bytes) : Option (Bytes × Bytes) := parseList parseNat bs

/-- Encode one child module. -/
def encModule (m : CoreModule) : Bytes := encBlob m.body ++ encOption encBlob m.meta

/-- Parse one child module. -/
def parseModule (bs : Bytes) : Option (CoreModule × Bytes) :=
  match parseBlob bs with
  | none => none
  | some (b, bs1) =>
    match parseOption parseBlob bs1 with
    | none => none
    | some (m, bs2) => some (⟨b, m⟩, bs2)

/-- Encode a composite artifact: component discriminator, then children. -/
def encComponent (c : Component) : Bytes :=
  componentTag :: encList encModule c.children

/-- Parse the children of a composite artifact from a full binary. -/
def componentChildren (bs : Bytes) : Option (List CoreModule) :=
  match bs with
  | [] => none
  | t :: rest =>
    if t = componentTag then
      match parseList parseModule rest with
      | some (ms, []) => some ms
      | _ => none
    else none

/-- The leading discriminator a well-formed core module body must carry
(the module magic, as the excluded oracle checks it). -/
def moduleMagic : Nat := 8

/-- A core module body is structurally well formed. -/
def coreValid (body : Bytes) : Bool := body.head? == some moduleMagic

/-- Modelled from the spec: the excluded component-aware validation oracle
— "a structural validity oracle for composite binaries", consumed as a
yes/no answer with a diagnostic on failure. -/
def validateComponent (bs : Bytes) : Except String Unit :=
  match componentChildren bs with
  | none => .error "invalid composite artifact structure"
  | some ms =>
    if ms.all fun m => coreValid m.body then .ok ()
    else .error "child module is not a valid core module"

/-- An input module handed to the component encoder: opaque body plus the
producers record already carried by its input bytes. -/
structure InputModule where
  body : Bytes
  producers : Producers
  deriving DecidableEq, Repr

/-- The component encoder's configuration, built fluently and consumed by
`componentEncode`. -/
structure EncoderConfig where
  resolve : Resolve
  world : WorldRef
  strEnc : StrEncoding
  primary : InputModule
  adapters : List (String × InputModule)
  validate : Bool
  deriving DecidableEq, Repr

/-- Component encoder errors. -/
inductive EncodeError
  | metadata (msg : String)
  | validation (diag : String)
  deriving DecidableEq, Repr

/-- Assemble the composite artifact (no validation yet): the current
tool's producers entry is appended, the metadata section is embedded on
the primary module — the first child — and adapters carry none. -/
def rawComponentBytes (cfg : EncoderConfig) : Except EncodeError Bytes :=
  match metadataEncode cfg.resolve cfg.world cfg.strEnc
      (some (addFieldEntry cfg.primary.producers producersField toolName toolVersion)) with
  | .error e => .error (.metadata e)
  | .ok meta =>
    .ok (encComponent ⟨⟨cfg.primary.body, some meta⟩ ::
      cfg.adapters.map fun a => ⟨a.2.body, none⟩⟩)

/-- The component encoder's finalizing call: assemble, then gate the bytes
behind the validation oracle when `validate` is set. -/
def componentEncode (cfg : EncoderConfig) : Except EncodeError Bytes :=
  match rawComponentBytes cfg with
  | .error e => .error e
  | .ok bs =>
    if cfg.validate then
      match validateComponent bs with
      | .ok _ => .ok bs
      | .error d => .error (.validation d)
    else .ok bs

/-! ## Top-level decoder -/

/-- The decoder's tagged-union result: a standalone interface package or a
composite artifact with its selected world. -/
inductive DecodedWasm
  | witPackage (r : Resolve) (pkg : Nat)
  | component (r : Resolve) (world : WorldRef)
  deriving DecidableEq, Repr

/-- Decode a composite artifact's payload: parse the children and
reconstruct the graph and selected world from the first child's
interface-type metadata section. -/
def decodeComponentBytes (rest : Bytes) : Except String (Resolve × WorldRef) :=
  match parseList parseModule rest with
  | some (m :: _, []) =>
    (match m.meta with
     | some mb =>
       (match metadataDecode mb with
        | .ok (r, w, _, _) => .ok (r, w)
        | .error e => .error e)
     | none => .error "primary module carries no interface-type metadata")
  | _ => .error "corrupt composite artifact"

/-- Modelled from the spec: `decode(bytes) -> decoded-artifact | error` —
classification is structural on the leading discriminator; ambiguous or
corrupt outer structure is an error, never a guess. -/
def decodeWasm (bs : Bytes) : Except String DecodedWasm :=
  match bs with
  | [] => .error "empty input"
  | t :: rest =>
    if t = componentTag then
      match decodeComponentBytes rest with
      | .ok (r, w) => .ok (.component r w)
      | .error e => .error e
    else if t = v2Tag then
      match decodeWitV2 rest with
      | .ok (r, p) => .ok (.witPackage r p)
      | .error e => .error e
    else if t = v1Tag then
      match decodeWitV1 rest with
      | .ok (r, p) => .ok (.witPackage r p)
      | .error e => .error e
    else .error "unrecognized outer structure"

/-- The producers chain exposed on the first child module of a composite
binary (what the harness reads back through the metadata section). -/
def producersOfBinary (bs : Bytes) : Option Producers :=
  match componentChildren bs with
  | some (m :: _) =>
    (match m.meta with
     | some mb =>
       (match metadataDecode mb with
        | .ok (_, _, _, p) => some p
        | .error _ => none)
     | none => none)
  | _ => none

/-! ## Linker

Modelled from the spec: the module linker (`Linker`, not under `src/`): a
configuration of named libraries, each tagged dlopen-able or not, plus a
`stub_missing_functions` flag (default false), finalized by `link()`.
"For every import required by any library, search all registered
libraries' exports for a matching name and type signature.  A match found
in a non-dlopen-able library is bound statically" — first registered
exporter wins, merge order is registration order; "a match found only in
a dlopen-able library is not statically bound"; with no match anywhere,
stub when the flag is set, otherwise fail reporting every
unresolved import by name and requesting library. -/

/-- A library registered with the linker: name, required imports, provided
exports (full signatures), and the dlopen-able tag. -/
structure Library where
  name : String
  imports : List FuncSig
  exports : List FuncSig
  dlopenable : Bool
  deriving DecidableEq, Repr

/-- The linker's accumulated configuration. -/
structure LinkerConfig where
  libs : List Library
  stubMissing : Bool
  deriving DecidableEq, Repr

/-- How one required import was resolved. -/
inductive Binding
  | static (lib : Nat)
  | indirect (lib : Nat)
  | stubbed
  deriving DecidableEq, Repr

/-- Index of the first list element satisfying the predicate. -/
def firstIdxSat (p : α → Bool) : List α → Option Nat
  | [] => none
  | a :: as => if p a then some 0 else (firstIdxSat p as).map (· + 1)

/-- The first registered non-dlopen-able library exporting signature `s`. -/
def findStaticExporter (libs : List Library) (s : FuncSig) : Option Nat :=
  firstIdxSat (fun l => !l.dlopenable && l.exports.contains s) libs

/-- The first registered dlopen-able library exporting signature `s`. -/
def findDynExporter (libs : List Library) (s : FuncSig) : Option Nat :=
  firstIdxSat (fun l => l.dlopenable && l.exports.contains s) libs

/-- Resolve one required import against the registered libraries. -/
def resolveImport (libs : List Library) (s : FuncSig) : Option Binding :=
  match findStaticExporter libs s with
  | some i => some (.static i)
  | none =>
    match findDynExporter libs s with
    | some i => some (.indirect i)
    | none => none

/-- The linker's merged output module. -/
structure LinkedModule where
  bindings : List (String × FuncSig × Binding)
  stubs : List FuncSig
  worldImports : List FuncSig
  worldExports : List FuncSig
  deriving DecidableEq, Repr

/-- Link failure: every unresolved import, by requesting library and name. -/
inductive LinkError
  | unresolved (missing : List (String × String))
  deriving DecidableEq, Repr

/-- Every (requesting library, import signature) pair no registered
library's exports can satisfy. -/
def unresolvedImports (libs : List Library) : List (String × FuncSig) :=
  libs.flatMap fun l =>
    (l.imports.filter fun s => (resolveImport libs s).isNone).map fun s => (l.name, s)

/-- The linker's finalizing call. -/
def link (cfg : LinkerConfig) : Except LinkError LinkedModule :=
  if unresolvedImports cfg.libs ≠ [] ∧ cfg.stubMissing = false then
    .error (.unresolved ((unresolvedImports cfg.libs).map fun m => (m.1, m.2.name)))
  else
    .ok
      { bindings := cfg.libs.flatMap fun l => l.imports.map fun s =>
          (l.name, s, (resolveImport cfg.libs s).getD .stubbed)
        stubs := (unresolvedImports cfg.libs).map Prod.snd
        worldImports := (cfg.libs.flatMap fun l => l.imports).filter fun s =>
          (resolveImport cfg.libs s).isNone
        worldExports := cfg.libs.flatMap fun l => l.exports }

/-! ## Textual printer and parser

Modelled from the spec: the printer (`WitPrinter`) and the excluded IDL
parser: "print(graph, package-or-world) -> text"; printing is
deterministic and "must produce text that the excluded parser accepts and
that, once re-resolved, is graph-equivalent to the input"; text files
carry one package each with the "package name embedded as the first
parseable token set".  The format is a space-separated token stream:
keyword `package`, the package name, then length-prefixed worlds and
interfaces with decimal counts. -/

/-- The character of one decimal digit. -/
def digitCh (d : Nat) : Char := Char.ofNat (48 + if d < 10 then d else 9)

/-- The value of one decimal digit character. -/
def chDigit (c : Char) : Nat := c.toNat - 48

/-- Decimal rendering of a natural number. -/
def natChars (n : Nat) : List Char :=
  if n = 0 then ['0'] else ((Nat.digits 10 n).map digitCh).reverse

/-- The value of a decimal token. -/
def valOfChars (cs : List Char) : Nat :=
  cs.foldl (fun acc c => 10 * acc + chDigit c) 0

/-- Read characters up to the next space. -/
def parseTokAux : List Char → Option (List Char × List Char)
  | [] => none
  | c :: cs =>
    if c = ' ' then some ([], cs)
    else
      match parseTokAux cs with
      | some (t, r) => some (c :: t, r)
      | none => none

/-- Read one non-empty space-terminated token. -/
def parseTok (cs : List Char) : Option (List Char × List Char) :=
  match parseTokAux cs with
  | some (t, r) => if t = [] then none else some (t, r)
  | none => none

/-- Parse a decimal count token. -/
def parseNatT (cs : List Char) : Option (Nat × List Char) :=
  match parseTok cs with
  | some (t, r) => some (valOfChars t, r)
  | none => none

/-- Parse a name token. -/
def parseNameT (cs : List Char) : Option (String × List Char) :=
  match parseTok cs with
  | some (t, r) => some (String.mk t, r)
  | none => none

/-- Expect a keyword token. -/
def parseKwT (kw : List Char) (cs : List Char) : Option (List Char) :=
  match parseTok cs with
  | some (t, r) => if t = kw then some r else none
  | none => none

/-- Parse exactly `n` elements with `p`. -/
def parseListTN (p : List Char → Option (α × List Char)) :
    Nat → List Char → Option (List α × List Char)
  | 0, cs => some ([], cs)
  | n + 1, cs =>
    match p cs with
    | none => none
    | some (x, cs1) =>
      match parseListTN p n cs1 with
      | none => none
      | some (xs, cs2) => some (x :: xs, cs2)

/-- Parse a count-prefixed list. -/
def parseListT (p : List Char → Option (α × List Char)) (cs : List Char) :
    Option (List α × List Char) :=
  match parseNatT cs with
  | none => none
  | some (n, cs1) => parseListTN p n cs1

/-- Parse a `uses` reference: two counts. -/
def parseUseT (cs : List Char) : Option ((Nat × Nat) × List Char) :=
  match parseNatT cs with
  | none => none
  | some (a, cs1) =>
    match parseNatT cs1 with
    | none => none
    | some (b, cs2) => some ((a, b), cs2)

/-- Parse a function signature from text. -/
def parseSigT (cs : List Char) : Option (FuncSig × List Char) :=
  match parseNameT cs with
  | none => none
  | some (nm, cs1) =>
    match parseListT parseNatT cs1 with
    | none => none
    | some (ps, cs2) =>
      match parseListT parseNatT cs2 with
      | none => none
      | some (rs, cs3) => some (⟨nm, ps, rs⟩, cs3)

/-- Parse a world from text. -/
def parseWorldT (cs : List Char) : Option (World × List Char) :=
  match parseNameT cs with
  | none => none
  | some (nm, cs1) =>
    match parseListT parseNameT cs1 with
    | none => none
    | some (is, cs2) =>
      match parseListT parseNameT cs2 with
      | none => none
      | some (es, cs3) => some (⟨nm, is, es⟩, cs3)

/-- Parse an interface from text. -/
def parseIfaceT (cs : List Char) : Option (Iface × List Char) :=
  match parseNameT cs with
  | none => none
  | some (nm, cs1) =>
    match parseListT parseSigT cs1 with
    | none => none
    | some (fs, cs2) =>
      match parseListT parseUseT cs2 with
      | none => none
      | some (us, cs3) => some (⟨nm, fs, us⟩, cs3)

/-- The leading keyword of a printed package text. -/
def pkgKw : List Char := "package".data

/-- Parse one package from text. -/
def parsePackageT (cs : List Char) : Option (Package × List Char) :=
  match parseKwT pkgKw cs with
  | none => none
  | some cs0 =>
    match parseNameT cs0 with
    | none => none
    | some (nm, cs1) =>
      match parseListT parseWorldT cs1 with
      | none => none
      | some (ws, cs2) =>
        match parseListT parseIfaceT cs2 with
        | none => none
        | some (is, cs3) => some (⟨nm, ws, is⟩, cs3)

/-- A count as one token. -/
def tkNat (n : Nat) : List (List Char) := [natChars n]

/-- A name as one token. -/
def tkName (s : String) : List (List Char) := [s.data]

/-- A list as a count token followed by the element tokens. -/
def tkList (f : α → List (List Char)) (xs : List α) : List (List Char) :=
  tkNat xs.length ++ xs.flatMap f

/-- Tokens of a function signature. -/
def tkSig (s : FuncSig) : List (List Char) :=
  tkName s.name ++ tkList tkNat s.params ++ tkList tkNat s.results

/-- Tokens of a world. -/
def tkWorld (w : World) : List (List Char) :=
  tkName w.name ++ tkList tkName w.imports ++ tkList tkName w.exports

/-- Tokens of an interface. -/
def tkIface (i : Iface) : List (List Char) :=
  tkName i.name ++ tkList tkSig i.funcs ++
    tkList (fun u => tkNat u.1 ++ tkNat u.2) i.uses

/-- Tokens of a package. -/
def tkPackage (p : Package) : List (List Char) :=
  [pkgKw] ++ tkName p.name ++ tkList tkWorld p.worlds ++ tkList tkIface p.interfaces

/-- Render tokens to text, each token followed by one space. -/
def renderToks (ts : List (List Char)) : List Char :=
  ts.flatMap fun t => t ++ [' ']

/-- Print one package to text. -/
def printPackageText (p : Package) : String := String.mk (renderToks (tkPackage p))

/-- Modelled from the spec: the excluded IDL parser turning one printed
package text back into a package. -/
def parsePackageText (s : String) : Option Package :=
  match parsePackageT s.data with
  | some (p, []) => some p
  | _ => none

/-- Print every package of a graph, one text per package. -/
def printAll (r : Resolve) : List String := r.packages.map printPackageText

/-- Parse each text in order. -/
def parseAllTexts : List String → Option (List Package)
  | [] => some []
  | s :: ss =>
    match parsePackageText s with
    | some p =>
      (match parseAllTexts ss with
       | some ps => some (p :: ps)
       | none => none)
    | none => none

/-- Re-parse printed texts into a fresh graph, pushed in print order. -/
def reparse (texts : List String) : Option Resolve :=
  match parseAllTexts texts with
  | some ps => some ⟨ps⟩
  | none => none

/-- A name printable as one token: non-empty, kebab-identifier characters. -/
def wfName (s : String) : Prop :=
  s.data ≠ [] ∧ ∀ c ∈ s.data, c.isAlphanum = true ∨ c = '-'

instance (s : String) : Decidable (wfName s) := by
  unfold wfName; infer_instance

/-- Every name of a package is printable. -/
def wfPackage (p : Package) : Prop :=
  wfName p.name ∧
  (∀ w ∈ p.worlds, wfName w.name ∧ (∀ s ∈ w.imports, wfName s) ∧
    ∀ s ∈ w.exports, wfName s) ∧
  (∀ i ∈ p.interfaces, wfName i.name ∧ ∀ f ∈ i.funcs, wfName f.name)

instance (p : Package) : Decidable (wfPackage p) := by
  unfold wfPackage; infer_instance

/-- Every name of a graph is printable (what the excluded parser's own
output guarantees). -/
def wfNames (r : Resolve) : Prop := ∀ p ∈ r.packages, wfPackage p

instance (r : Resolve) : Decidable (wfNames r) := by
  unfold wfNames; infer_instance

/-! ## Sample inputs used by the witnesses -/

/-- A small well-formed interface graph with one non-empty package. -/
def sampleResolve : Resolve :=
  ⟨[⟨"pkg-a",
     [⟨"the-world", ["imp-one"], ["exp-one"]⟩],
     [⟨"iface-a", [⟨"f", [0, 1], [2]⟩], [(0, 0)]⟩]⟩]⟩

/-- A well-formed interface graph whose single package is empty. -/
def emptyResolve : Resolve := ⟨[⟨"pkg-empty", [], []⟩]⟩

/-- A producers record already carried by an input module. -/
def sampleProducers : Producers := [("processed-by", [("my-fake-bindgen", "123.45")])]

/-- An encoder configuration whose modules are structurally valid. -/
def goodCfg : EncoderConfig :=
  ⟨sampleResolve, (0, 0), .utf8, ⟨[moduleMagic], sampleProducers⟩,
   [("adapter-a", ⟨[moduleMagic, 3], []⟩)], true⟩

/-- The bytes the component encoder produces for `goodCfg`. -/
def goodBytes : Bytes := (componentEncode goodCfg).toOption.getD []

/-- The same configuration with a malformed primary module body. -/
def badCfg : EncoderConfig := { goodCfg with primary := ⟨[9], sampleProducers⟩ }

/-- The composite bytes assembled for `badCfg` before validation. -/
def badRawBytes : Bytes := (rawComponentBytes badCfg).toOption.getD []

/-- A function signature shared by the sample libraries. -/
def sigF : FuncSig := ⟨"f", [0], [1]⟩

/-- Non-dlopen-able library exporting `f`. -/
def libA : Library := ⟨"lib-a", [], [sigF], false⟩

/-- Dlopen-able library also exporting `f`. -/
def libB : Library := ⟨"lib-b", [], [sigF], true⟩

/-- Library importing `f`. -/
def libC : Library := ⟨"lib-c", [sigF], [], false⟩

/-- Linker configuration with the dlopen-able exporter registered first. -/
def cfgABC : LinkerConfig := ⟨[libB, libA, libC], false⟩

/-- Linker configuration with an unsatisfiable import and stubbing off. -/
def cfgNoStub : LinkerConfig := ⟨[libC], false⟩

/-! ## Parser/serializer round-trip lemmas -/

theorem parseNat_enc (n : Nat) (r : Bytes) : parseNat (encNat n ++ r) = some (n, r) := rfl

theorem parseListN_enc {f : α → Bytes} {p : Bytes → Option (α × Bytes)}
    (xs : List α) (hx : ∀ x ∈ xs, ∀ r, p (f x ++ r) = some (x, r)) (r : Bytes) :
    parseListN p xs.length (xs.flatMap f ++ r) = some (xs, r) := by
  induction xs with
  | nil => rfl
  | cons x xs ih =>
    have hx1 : p (f x ++ (xs.flatMap f ++ r)) = some (x, xs.flatMap f ++ r) :=
      hx x (List.mem_cons_self x xs) _
    have ih1 := ih (fun y hy r => hx y (List.mem_cons_of_mem x hy) r)
    simp only [List.length_cons, List.flatMap_cons, List.append_assoc, parseListN, hx1, ih1]

theorem parseList_enc {f : α → Bytes} {p : Bytes → Option (α × Bytes)}
    (xs : List α) (hx : ∀ x ∈ xs, ∀ r, p (f x ++ r) = some (x, r)) (r : Bytes) :
    parseList p (encList f xs ++ r) = some (xs, r) := by
  simp only [parseList, encList, List.append_assoc, parseNat_enc]
  exact parseListN_enc xs hx r

theorem parseChar_enc (c : Char) (r : Bytes) :
    parseChar (encChar c ++ r) = some (c, r) := by
  simp only [parseChar, encChar, List.singleton_append, parseNat, Char.ofNat_toNat]

theorem parseString_enc (s : String) (r : Bytes) :
    parseString (encString s ++ r) = some (s, r) := by
  simp only [parseString, encString,
    parseList_enc s.data (fun c _ r => parseChar_enc c r) r]

theorem parsePair_enc {f : α → Bytes} {g : β → Bytes}
    {p : Bytes → Option (α × Bytes)} {q : Bytes → Option (β × Bytes)}
    (x : α × β) (hp : ∀ r, p (f x.1 ++ r) = some (x.1, r))
    (hq : ∀ r, q (g x.2 ++ r) = some (x.2, r)) (r : Bytes) :
    parsePair p q (encPair f g x ++ r) = some (x, r) := by
  simp only [parsePair, encPair, List.append_assoc, hp, hq]

theorem parseSig_enc (s : FuncSig) (r : Bytes) :
    parseSig (encSig s ++ r) = some (s, r) := by
  simp only [parseSig, encSig, List.append_assoc, parseString_enc,
    parseList_enc _ (fun n _ r => parseNat_enc n r)]

theorem parseWorld_enc (w : World) (r : Bytes) :
    parseWorld (encWorld w ++ r) = some (w, r) := by
  simp only [parseWorld, encWorld, List.append_assoc, parseString_enc,
    parseList_enc _ (fun s _ r => parseString_enc s r)]

theorem parseIface_enc (i : Iface) (r : Bytes) :
    parseIface (encIface i ++ r) = some (i, r) := by
  simp only [parseIface, encIface, List.append_assoc, parseString_enc,
    parseList_enc _ (fun s _ r => parseSig_enc s r),
    parseList_enc _ (fun u _ r =>
      parsePair_enc u (parseNat_enc u.1) (parseNat_enc u.2) r)]

theorem parsePackage_enc (p : Package) (r : Bytes) :
    parsePackage (encPackage p ++ r) = some (p, r) := by
  simp only [parsePackage, encPackage, List.append_assoc, parseString_enc,
    parseList_enc _ (fun w _ r => parseWorld_enc w r),
    parseList_enc _ (fun i _ r => parseIface_enc i r)]

theorem parseResolve_enc (res : Resolve) (r : Bytes) :
    parseResolve (encResolve res ++ r) = some (res, r) := by
  simp only [parseResolve, encResolve,
    parseList_enc _ (fun p _ r => parsePackage_enc p r)]

/-! ## Package codec round-trip -/

theorem chosenVersion_true_nonempty {v : Option Bool} {r : Resolve} {pkg : Nat}
    (h : chosenVersion v r pkg = true) : pkgIsEmpty r pkg = false := by
  cases v with
  | none => simpa [chosenVersion] using h
  | some b =>
    have := (Bool.and_eq_true _ _).mp h
    simpa using this.2

theorem decodeWit_encodeWit (v : Option Bool) (r : Resolve) (pkg : Nat)
    (h1 : refsOk r = true) (h2 : pkg < r.packages.length) :
    ∃ bs, encodeWit v r pkg = .ok bs ∧ decodeWit bs = .ok (r, pkg) := by
  unfold encodeWit
  rw [if_pos ⟨h1, h2⟩]
  cases hcv : chosenVersion v r pkg with
  | true =>
    have hemp := chosenVersion_true_nonempty hcv
    refine ⟨_, rfl, ?_⟩
    have h3 : parseResolve (encResolve r ++ []) = some (r, []) := parseResolve_enc r []
    rw [List.append_nil] at h3
    simp [decodeWit, decodeWitV2, v1Tag, v2Tag, encNat, parseNat, h3, h1, h2, hemp]
  | false =>
    refine ⟨_, rfl, ?_⟩
    have h3 : parseResolve (encResolve r ++ [pkg]) = some (r, [pkg]) := by
      simpa [encNat] using parseResolve_enc r (encNat pkg)
    simp [decodeWit, decodeWitV1, v1Tag, v2Tag, encNat, parseNat, h3, h1, h2]

/-- C1: for every interface graph and package accepted by the package codec
(all cross-package references resolved, package identity in the arena — the
shape the excluded parser produces), decoding the encoded bytes yields a
graph and package that, re-encoded under the same version flag, produce
byte-identical output. -/
theorem wit_binary_roundtrip (v : Option Bool) (r : Resolve) (pkg : Nat)
    (h1 : refsOk r = true) (h2 : pkg < r.packages.length) :
    ∃ bs r2 pkg2,
      encodeWit v r pkg = .ok bs ∧
      decodeWit bs = .ok (r2, pkg2) ∧
      encodeWit v r2 pkg2 = .ok bs := by
  obtain ⟨bs, he, hd⟩ := decodeWit_encodeWit v r pkg h1 h2
  exact ⟨bs, r, pkg, he, hd, he⟩

/-- Witness for C1 at a concrete graph and package. -/
theorem wit_binary_roundtrip_witness :
    ∃ bs r2 pkg2,
      encodeWit (some true) sampleResolve 0 = .ok bs ∧
      decodeWit bs = .ok (r2, pkg2) ∧
      encodeWit (some true) r2 pkg2 = .ok bs :=
  wit_binary_roundtrip (some true) sampleResolve 0 (by decide) (by decide)

/-- C3: encoding an empty package with the version that cannot represent
emptiness (v2, flag `some true`) is silently corrected to the other
version, and the bytes produced still decode back to the same graph and
package — never corrupt output. -/
theorem encode_empty_version_safety (r : Resolve) (pkg : Nat)
    (h1 : refsOk r = true) (h2 : pkg < r.packages.length)
    (he : pkgIsEmpty r pkg = true) :
    encodeWit (some true) r pkg = encodeWit (some false) r pkg ∧
    ∀ bs, encodeWit (some true) r pkg = .ok bs → decodeWit bs = .ok (r, pkg) := by
  constructor
  · simp [encodeWit, chosenVersion, he, h1, h2]
  · intro bs hbs
    obtain ⟨bs', he', hd'⟩ := decodeWit_encodeWit (some true) r pkg h1 h2
    rw [hbs] at he'
    obtain rfl : bs = bs' := by
      simpa using he'
    exact hd'

/-- Witness for C3 at a concrete empty package. -/
theorem encode_empty_version_safety_witness :
    encodeWit (some true) emptyResolve 0 = encodeWit (some false) emptyResolve 0 :=
  (encode_empty_version_safety emptyResolve 0 (by decide) (by decide) (by decide)).1

/-! ## Metadata and component round-trip lemmas -/

theorem parseStrEnc_enc (se : StrEncoding) (r : Bytes) :
    parseStrEnc (encStrEnc se ++ r) = some (se, r) := by
  cases se <;> rfl

theorem parseProducers_enc (p : Producers) (r : Bytes) :
    parseProducers (encProducers p ++ r) = some (p, r) :=
  parseList_enc p
    (fun q _ r =>
      parsePair_enc q (parseString_enc q.1)
        (fun r =>
          parseList_enc q.2
            (fun e _ r => parsePair_enc e (parseString_enc e.1) (parseString_enc e.2) r) r)
        r)
    r

theorem parseBlob_enc (b : Bytes) (r : Bytes) :
    parseBlob (encBlob b ++ r) = some (b, r) :=
  parseList_enc b (fun n _ r => parseNat_enc n r) r

theorem parseOption_enc {f : α → Bytes} {p : Bytes → Option (α × Bytes)}
    (x : Option α) (hx : ∀ a, x = some a → ∀ r, p (f a ++ r) = some (a, r)) (r : Bytes) :
    parseOption p (encOption f x ++ r) = some (x, r) := by
  cases x with
  | none => rfl
  | some a =>
    simp only [encOption, List.cons_append, parseOption, hx a rfl]

theorem parseModule_enc (m : CoreModule) (r : Bytes) :
    parseModule (encModule m ++ r) = some (m, r) := by
  simp only [parseModule, encModule, List.append_assoc, parseBlob_enc,
    parseOption_enc m.meta (fun a _ r => parseBlob_enc a r)]

theorem componentChildren_enc (c : Component) :
    componentChildren (encComponent c) = some c.children := by
  have h := parseList_enc c.children (fun m _ r => parseModule_enc m r) []
  rw [List.append_nil] at h
  simp [componentChildren, encComponent, h]

theorem metadataDecode_encode (r : Resolve) (w : WorldRef) (se : StrEncoding)
    (pr : Option Producers) (mb : Bytes) (h : metadataEncode r w se pr = .ok mb) :
    metadataDecode mb = .ok (r, w, se, pr.getD []) := by
  obtain ⟨w1, w2⟩ := w
  unfold metadataEncode at h
  by_cases hc : worldRefOk r (w1, w2) = true ∧ refsOk r = true
  · rw [if_pos hc] at h
    obtain rfl : mb = encResolve r ++ encNat w1 ++ encNat w2 ++ encStrEnc se ++
        encProducers (pr.getD []) := by
      cases h
      rfl
    have hp : parseProducers (encProducers (pr.getD [])) = some (pr.getD [], []) := by
      have := parseProducers_enc (pr.getD []) []
      rwa [List.append_nil] at this
    simp only [metadataDecode, List.append_assoc, parseResolve_enc, encNat,
      List.cons_append, List.nil_append, parseNat, parseStrEnc_enc, hp]
    rw [if_pos hc]
  · rw [if_neg hc] at h
    exact absurd h (by simp)

theorem componentEncode_ok_raw (cfg : EncoderConfig) (bs : Bytes)
    (henc : componentEncode cfg = .ok bs) : rawComponentBytes cfg = .ok bs := by
  cases hraw : rawComponentBytes cfg with
  | error e => simp [componentEncode, hraw] at henc
  | ok bs0 =>
    by_cases hv : cfg.validate = true
    · cases hval : validateComponent bs0 with
      | ok u =>
        have hc : componentEncode cfg = .ok bs0 := by
          simp [componentEncode, hraw, hv, hval]
        obtain rfl : bs0 = bs := by simpa using hc.symm.trans henc
        rfl
      | error d =>
        have hc : componentEncode cfg = .error (.validation d) := by
          simp [componentEncode, hraw, hv, hval]
        rw [hc] at henc
        exact absurd henc (by simp)
    · have hc : componentEncode cfg = .ok bs0 := by
        simp [componentEncode, hraw, hv]
      obtain rfl : bs0 = bs := by simpa using hc.symm.trans henc
      rfl

theorem rawComponent_structure (cfg : EncoderConfig) (bs : Bytes)
    (hraw : rawComponentBytes cfg = .ok bs) :
    ∃ meta,
      metadataEncode cfg.resolve cfg.world cfg.strEnc
        (some (addFieldEntry cfg.primary.producers producersField toolName toolVersion)) =
        .ok meta ∧
      bs = encComponent ⟨⟨cfg.primary.body, some meta⟩ ::
        cfg.adapters.map fun a => ⟨a.2.body, none⟩⟩ := by
  unfold rawComponentBytes at hraw
  cases hme : metadataEncode cfg.resolve cfg.world cfg.strEnc
      (some (addFieldEntry cfg.primary.producers producersField toolName toolVersion)) with
  | error e => rw [hme] at hraw; exact absurd hraw (by simp)
  | ok meta =>
    rw [hme] at hraw
    refine ⟨meta, rfl, ?_⟩
    cases hraw
    rfl

theorem metadataEncode_ok_cond (r : Resolve) (w : WorldRef) (se : StrEncoding)
    (pr : Option Producers) (mb : Bytes) (h : metadataEncode r w se pr = .ok mb) :
    worldRefOk r w = true ∧ refsOk r = true := by
  unfold metadataEncode at h
  by_cases hc : worldRefOk r w = true ∧ refsOk r = true
  · exact hc
  · rw [if_neg hc] at h; exact absurd h (by simp)

theorem worldRefOk_pkg_present {r : Resolve} {w : WorldRef}
    (h : worldRefOk r w = true) : (r.packages[w.1]?).isSome := by
  unfold worldRefOk at h
  cases hg : r.packages[w.1]? with
  | none => rw [hg] at h; cases h
  | some p => simp

/-! ## Producers-record lemmas -/

theorem entryMem_addFieldEntry_of_mem {p : Producers} {f t v : String}
    (f' t' v' : String) (h : entryMem p f t v) :
    entryMem (addFieldEntry p f' t' v') f t v := by
  obtain ⟨l, hl, hm⟩ := h
  unfold addFieldEntry
  by_cases hc : (p.map Prod.fst).contains f'
  · rw [if_pos hc]
    by_cases hf : f = f'
    · subst hf
      refine ⟨l ++ [(t', v')], ?_, List.mem_append_left _ hm⟩
      have := List.mem_map_of_mem
        (fun q => if q.1 = f then (q.1, q.2 ++ [(t', v')]) else q) hl
      simpa using this
    · refine ⟨l, ?_, hm⟩
      have := List.mem_map_of_mem
        (fun q => if q.1 = f' then (q.1, q.2 ++ [(t', v')]) else q) hl
      simpa [hf] using this
  · rw [if_neg hc]
    exact ⟨l, List.mem_append_left _ hl, hm⟩

theorem entryMem_addFieldEntry_self (p : Producers) (f t v : String) :
    entryMem (addFieldEntry p f t v) f t v := by
  unfold addFieldEntry
  by_cases hc : (p.map Prod.fst).contains f
  · rw [if_pos hc]
    have hmem : f ∈ p.map Prod.fst := List.mem_of_elem_eq_true hc
    obtain ⟨q, hq, hq1⟩ := List.mem_map.mp hmem
    refine ⟨q.2 ++ [(t, v)], ?_, List.mem_append_right _ (by simp)⟩
    have := List.mem_map_of_mem
      (fun q => if q.1 = f then (q.1, q.2 ++ [(t, v)]) else q) hq
    simpa [hq1] using this
  · rw [if_neg hc]
    exact ⟨[(t, v)], List.mem_append_right _ (by simp), by simp⟩

/-! ## Claim theorems: component encoder and decoder -/

/-- C4: two encode calls of the package codec or the component encoder
with identical inputs and configuration produce byte-identical output (the
embedding is a pure function of its inputs), and the automatic version
choice never selects the version that cannot represent an empty package
when the package is empty. -/
theorem encode_determinism :
    (∀ va vb : Option Bool, ∀ ra rb : Resolve, ∀ pa pb : Nat,
        va = vb → ra = rb → pa = pb → encodeWit va ra pa = encodeWit vb rb pb) ∧
    (∀ ca cb : EncoderConfig, ca = cb → componentEncode ca = componentEncode cb) ∧
    (∀ r pkg, pkgIsEmpty r pkg = true → chosenVersion none r pkg = false) := by
  refine ⟨?_, ?_, ?_⟩
  · rintro va vb ra rb pa pb rfl rfl rfl; rfl
  · rintro ca cb rfl; rfl
  · intro r pkg h; simp [chosenVersion, h]

/-- Witness for C4: on the concrete empty package the automatic choice
takes the version that can represent emptiness. -/
theorem encode_determinism_witness : chosenVersion none emptyResolve 0 = false :=
  encode_determinism.2.2 emptyResolve 0 (by decide)

/-- C5: when the component encoder succeeds, the metadata section sits on
the primary module — the first child of the composite, not on adapters —
and the producers record exposed after decoding keeps every pre-existing
tool entry and gains a newly appended entry for this tool. -/
theorem producers_chain_monotone (cfg : EncoderConfig) (bs : Bytes)
    (henc : componentEncode cfg = .ok bs) :
    ∃ meta P,
      componentChildren bs =
        some (⟨cfg.primary.body, some meta⟩ :: cfg.adapters.map fun a => ⟨a.2.body, none⟩) ∧
      producersOfBinary bs = some P ∧
      (∀ f t v, entryMem cfg.primary.producers f t v → entryMem P f t v) ∧
      entryMem P producersField toolName toolVersion := by
  obtain ⟨meta, hme, rfl⟩ :=
    rawComponent_structure cfg bs (componentEncode_ok_raw cfg bs henc)
  have hch := componentChildren_enc ⟨⟨cfg.primary.body, some meta⟩ ::
    cfg.adapters.map fun a => ⟨a.2.body, none⟩⟩
  have hmd := metadataDecode_encode _ _ _ _ _ hme
  refine ⟨meta, addFieldEntry cfg.primary.producers producersField toolName toolVersion,
    hch, ?_, fun f t v h => entryMem_addFieldEntry_of_mem _ _ _ h,
    entryMem_addFieldEntry_self _ _ _ _⟩
  simp [producersOfBinary, hch, hmd]

/-- Witness for C5 at a concrete module that already carries a producers
record. -/
theorem producers_chain_monotone_witness :
    ∃ meta P,
      componentChildren goodBytes =
        some (⟨goodCfg.primary.body, some meta⟩ ::
          goodCfg.adapters.map fun a => ⟨a.2.body, none⟩) ∧
      producersOfBinary goodBytes = some P ∧
      (∀ f t v, entryMem goodCfg.primary.producers f t v → entryMem P f t v) ∧
      entryMem P producersField toolName toolVersion :=
  producers_chain_monotone goodCfg goodBytes rfl

/-- C8: with `validate` set, any bytes the component encoder returns pass
the validation oracle, and when the oracle rejects the assembled bytes the
encoder returns a validation error carrying the oracle's diagnostic —
never the bytes. -/
theorem validation_gate (cfg : EncoderConfig) (hv : cfg.validate = true) :
    (∀ bs, componentEncode cfg = .ok bs → validateComponent bs = .ok ()) ∧
    (∀ bs d, rawComponentBytes cfg = .ok bs → validateComponent bs = .error d →
      componentEncode cfg = .error (.validation d)) := by
  constructor
  · intro bs h
    cases hraw : rawComponentBytes cfg with
    | error e => simp [componentEncode, hraw] at h
    | ok bs0 =>
      cases hval : validateComponent bs0 with
      | ok u =>
        have hc : componentEncode cfg = .ok bs0 := by
          simp [componentEncode, hraw, hv, hval]
        obtain rfl : bs0 = bs := by simpa using hc.symm.trans h
        cases u
        exact hval
      | error d =>
        have hc : componentEncode cfg = .error (.validation d) := by
          simp [componentEncode, hraw, hv, hval]
        rw [hc] at h
        exact absurd h (by simp)
  · intro bs d hraw hval
    simp [componentEncode, hraw, hv, hval]

/-- Witness for C8: a malformed primary module body makes the gated
encoder return the oracle's diagnostic instead of bytes. -/
theorem validation_gate_witness :
    componentEncode badCfg = .error (.validation "child module is not a valid core module") :=
  (validation_gate badCfg rfl).2 badRawBytes
    "child module is not a valid core module" rfl rfl

/-- C9: decoding classifies structurally — bytes whose outer shape is a
standalone package (v1 or v2 discriminator with a well-formed payload)
yield the package variant, bytes whose outer shape is a composite artifact
yield the component variant with its selected world, and any other outer
structure yields a decode error, never a guess. -/
theorem decode_structural_classification :
    (∀ rest r pkg, decodeWitV1 rest = .ok (r, pkg) →
        decodeWasm (v1Tag :: rest) = .ok (.witPackage r pkg)) ∧
    (∀ rest r pkg, decodeWitV2 rest = .ok (r, pkg) →
        decodeWasm (v2Tag :: rest) = .ok (.witPackage r pkg)) ∧
    (∀ rest r w, decodeComponentBytes rest = .ok (r, w) →
        decodeWasm (componentTag :: rest) = .ok (.component r w)) ∧
    (∀ t rest, t ≠ componentTag → t ≠ v1Tag → t ≠ v2Tag →
        ∃ e, decodeWasm (t :: rest) = .error e) ∧
    (∃ e, decodeWasm [] = .error e) := by
  refine ⟨?_, ?_, ?_, ?_, ⟨_, rfl⟩⟩
  · intro rest r pkg h
    simp [decodeWasm, v1Tag, v2Tag, componentTag, h]
  · intro rest r pkg h
    simp [decodeWasm, v1Tag, v2Tag, componentTag, h]
  · intro rest r w h
    simp [decodeWasm, componentTag, h]
  · intro t rest h0 h1 h2
    exact ⟨"unrecognized outer structure", by simp [decodeWasm, h0, h1, h2]⟩

/-- Witness for C9: concrete package-shaped bytes decode to the package
variant. -/
theorem decode_structural_classification_witness :
    decodeWasm (v1Tag :: (encResolve sampleResolve ++ [0])) =
      .ok (.witPackage sampleResolve 0) :=
  decode_structural_classification.1 (encResolve sampleResolve ++ [0])
    sampleResolve 0 rfl

/-- C10: every byte sequence the component encoder returns decodes to the
component variant (never the package variant), and the selected world's
owning package is present in the decoded graph. -/
theorem component_encode_decodes (cfg : EncoderConfig) (bs : Bytes)
    (henc : componentEncode cfg = .ok bs) :
    decodeWasm bs = .ok (.component cfg.resolve cfg.world) ∧
    (cfg.resolve.packages[cfg.world.1]?).isSome := by
  obtain ⟨meta, hme, rfl⟩ :=
    rawComponent_structure cfg bs (componentEncode_ok_raw cfg bs henc)
  have hcond := metadataEncode_ok_cond _ _ _ _ _ hme
  have hmd := metadataDecode_encode _ _ _ _ _ hme
  constructor
  · have hp : parseList parseModule
        (encList encModule (⟨cfg.primary.body, some meta⟩ ::
          cfg.adapters.map fun a => ⟨a.2.body, none⟩)) =
        some ((⟨cfg.primary.body, some meta⟩ ::
          cfg.adapters.map fun a => ⟨a.2.body, none⟩ : List CoreModule), []) := by
      have := parseList_enc (p := parseModule)
        (⟨cfg.primary.body, some meta⟩ :: cfg.adapters.map fun a => ⟨a.2.body, none⟩)
        (fun m _ r => parseModule_enc m r) []
      rwa [List.append_nil] at this
    simp [decodeWasm, encComponent, componentTag, decodeComponentBytes, hp, hmd]
  · exact worldRefOk_pkg_present hcond.1

/-- Witness for C10 at the concrete encoder configuration. -/
theorem component_encode_decodes_witness :
    decodeWasm goodBytes = .ok (.component goodCfg.resolve goodCfg.world) ∧
    (goodCfg.resolve.packages[goodCfg.world.1]?).isSome :=
  component_encode_decodes goodCfg goodBytes rfl

/-! ## Linker lemmas and claim theorems -/

theorem firstIdxSat_eq_some {p : α → Bool} {l : List α} {i : Nat}
    (hsat : ∃ a, l[i]? = some a ∧ p a = true)
    (hmin : ∀ j, j < i → ∀ b, l[j]? = some b → p b = false) :
    firstIdxSat p l = some i := by
  induction l generalizing i with
  | nil =>
    obtain ⟨a, ha, _⟩ := hsat
    simp at ha
  | cons x xs ih =>
    cases i with
    | zero =>
      obtain ⟨a, ha, hpa⟩ := hsat
      obtain rfl : x = a := by simpa using ha
      simp [firstIdxSat, hpa]
    | succ i =>
      have hx : p x = false := hmin 0 (Nat.succ_pos i) x (by simp)
      obtain ⟨a, ha, hpa⟩ := hsat
      rw [List.getElem?_cons_succ] at ha
      have hrec := ih ⟨a, ha, hpa⟩
        (fun j hj b hb => hmin (j + 1) (by omega) b (by simpa using hb))
      simp [firstIdxSat, hx, hrec]

/-- C6: when library `A` at registration index `i` is the first
non-dlopen-able exporter of signature `s` — even with a dlopen-able
exporter registered earlier — resolution binds `s` statically to `A`, and
any library importing `s` gets that static binding in the linked module. -/
theorem linker_static_precedence (cfg : LinkerConfig) (i : Nat) (A L : Library)
    (s : FuncSig) (hA : cfg.libs[i]? = some A) (hnd : A.dlopenable = false)
    (hex : A.exports.contains s = true)
    (hfirst : ∀ j, j < i → ∀ B, cfg.libs[j]? = some B → B.dlopenable = false →
      B.exports.contains s = false)
    (hL : L ∈ cfg.libs) (hs : s ∈ L.imports) :
    resolveImport cfg.libs s = some (.static i) ∧
    ∀ m, link cfg = .ok m → (L.name, s, Binding.static i) ∈ m.bindings := by
  have hres : resolveImport cfg.libs s = some (.static i) := by
    have hfind : findStaticExporter cfg.libs s = some i := by
      refine firstIdxSat_eq_some
        ⟨A, hA, by simp only [hnd, Bool.not_false, Bool.true_and, hex]⟩ ?_
      intro j hj B hB
      cases hdl : B.dlopenable with
      | true => simp [hdl]
      | false =>
        simp only [hdl, Bool.not_false, Bool.true_and]
        exact hfirst j hj B hB hdl
    simp [resolveImport, hfind]
  refine ⟨hres, ?_⟩
  intro m hok
  unfold link at hok
  by_cases hcond : unresolvedImports cfg.libs ≠ [] ∧ cfg.stubMissing = false
  · rw [if_pos hcond] at hok
    exact absurd hok (by simp)
  · rw [if_neg hcond] at hok
    obtain rfl : m = _ := by simpa using hok.symm
    refine List.mem_flatMap.mpr ⟨L, hL, ?_⟩
    refine List.mem_map.mpr ⟨s, hs, ?_⟩
    simp [hres]

/-- Witness for C6: with the dlopen-able exporter registered first,
the import still binds statically to the first non-dlopen-able
exporter. -/
theorem linker_static_precedence_witness :
    resolveImport cfgABC.libs sigF = some (.static 1) :=
  (linker_static_precedence cfgABC 1 libA libC sigF rfl rfl rfl
    (by
      intro j hj B hB hdl
      interval_cases j
      obtain rfl : libB = B := by simpa [cfgABC] using hB
      exact absurd hdl (by decide))
    (by decide) (by decide)).1

/-- C7: with stubbing off, a configuration containing an
unsatisfiable import fails, the error naming every unresolved import and
its requesting library; with stubbing on, linking succeeds and the merged
module carries a synthesized stub of exactly the required signature for
each of them. -/
theorem stub_gating (cfg : LinkerConfig) :
    (cfg.stubMissing = false → unresolvedImports cfg.libs ≠ [] →
      link cfg = .error (.unresolved
        ((unresolvedImports cfg.libs).map fun m => (m.1, m.2.name)))) ∧
    (cfg.stubMissing = true →
      ∃ m, link cfg = .ok m ∧
        m.stubs = (unresolvedImports cfg.libs).map Prod.snd ∧
        ∀ ln s, (ln, s) ∈ unresolvedImports cfg.libs → s ∈ m.stubs) := by
  constructor
  · intro hsm hne
    unfold link
    rw [if_pos ⟨hne, hsm⟩]
  · intro hsm
    unfold link
    rw [if_neg (by simp [hsm])]
    refine ⟨_, rfl, rfl, ?_⟩
    intro ln s h
    exact List.mem_map_of_mem Prod.snd h

/-- Witness for C7: a concrete unresolved import with stubbing off fails
naming the import and its requesting library. -/
theorem stub_gating_witness :
    link cfgNoStub = .error (.unresolved
      ((unresolvedImports cfgNoStub.libs).map fun m => (m.1, m.2.name))) :=
  (stub_gating cfgNoStub).1 rfl (by decide)

/-! ## Text printer/parser round-trip lemmas -/

theorem chDigit_digitCh {d : Nat} (h : d < 10) : chDigit (digitCh d) = d := by
  interval_cases d <;> decide

theorem digitCh_ne_space (d : Nat) : digitCh d ≠ ' ' := by
  unfold digitCh
  by_cases h : d < 10
  · interval_cases d <;> decide
  · rw [if_neg h]; decide

theorem natChars_ne_nil (n : Nat) : natChars n ≠ [] := by
  unfold natChars
  by_cases h : n = 0
  · simp [h]
  · rw [if_neg h]
    simp [List.map_eq_nil_iff, Nat.digits_ne_nil_iff_ne_zero, h]

theorem natChars_ne_space (n : Nat) : ∀ c ∈ natChars n, c ≠ ' ' := by
  intro c hc
  unfold natChars at hc
  by_cases h : n = 0
  · rw [if_pos h] at hc
    obtain rfl : c = '0' := by simpa using hc
    decide
  · rw [if_neg h, List.mem_reverse] at hc
    obtain ⟨d, _, rfl⟩ := List.mem_map.mp hc
    exact digitCh_ne_space d

theorem valOfChars_append (cs : List Char) (c : Char) :
    valOfChars (cs ++ [c]) = 10 * valOfChars cs + chDigit c := by
  simp [valOfChars, List.foldl_append]

theorem valOf_revMap (ds : List Nat) (h : ∀ d ∈ ds, d < 10) :
    valOfChars ((ds.map digitCh).reverse) = Nat.ofDigits 10 ds := by
  induction ds with
  | nil => simp [valOfChars, Nat.ofDigits_nil]
  | cons d ds ih =>
    have h1 : chDigit (digitCh d) = d := chDigit_digitCh (h d (by simp))
    have ih1 := ih fun x hx => h x (by simp [hx])
    simp only [List.map_cons, List.reverse_cons, valOfChars_append, ih1, h1,
      Nat.ofDigits_cons]
    ring

theorem valOf_natChars (n : Nat) : valOfChars (natChars n) = n := by
  unfold natChars
  by_cases h : n = 0
  · rw [if_pos h, h]; decide
  · rw [if_neg h, valOf_revMap _ fun d hd => Nat.digits_lt_base (by norm_num) hd]
    exact Nat.ofDigits_digits 10 n

theorem parseTokAux_append (t : List Char) (hsp : ∀ c ∈ t, c ≠ ' ')
    (rest : List Char) : parseTokAux (t ++ ' ' :: rest) = some (t, rest) := by
  induction t with
  | nil => simp [parseTokAux]
  | cons c cs ih =>
    have hc : c ≠ ' ' := hsp c (by simp)
    have ih1 := ih fun x hx => hsp x (by simp [hx])
    simp [parseTokAux, hc, ih1]

theorem parseTok_append (t : List Char) (ht : t ≠ []) (hsp : ∀ c ∈ t, c ≠ ' ')
    (rest : List Char) : parseTok (t ++ ' ' :: rest) = some (t, rest) := by
  simp [parseTok, parseTokAux_append t hsp rest, ht]

theorem renderToks_cons (t : List Char) (ts : List (List Char)) :
    renderToks (t :: ts) = t ++ ' ' :: renderToks ts := by
  simp [renderToks]

theorem name_char_ne_space {c : Char} (h : c.isAlphanum = true ∨ c = '-') :
    c ≠ ' ' := by
  rcases h with h | h
  · intro he; rw [he] at h; exact absurd h (by decide)
  · rw [h]; decide

theorem parseNatT_tk (n : Nat) (ts : List (List Char)) (r : List Char) :
    parseNatT (renderToks (tkNat n ++ ts) ++ r) = some (n, renderToks ts ++ r) := by
  have h := parseTok_append (natChars n) (natChars_ne_nil n) (natChars_ne_space n)
    (renderToks ts ++ r)
  simp only [tkNat, List.cons_append, List.nil_append, renderToks_cons,
    List.append_assoc, List.cons_append] at *
  simp [parseNatT, h, valOf_natChars]

theorem parseNameT_tk (s : String) (hw : wfName s) (ts : List (List Char))
    (r : List Char) :
    parseNameT (renderToks (tkName s ++ ts) ++ r) = some (s, renderToks ts ++ r) := by
  have h := parseTok_append s.data hw.1 (fun c hc => name_char_ne_space (hw.2 c hc))
    (renderToks ts ++ r)
  simp only [tkName, List.cons_append, List.nil_append, renderToks_cons,
    List.append_assoc, List.cons_append] at *
  simp [parseNameT, h]

theorem parseKwT_tk (kw : List Char) (hk : kw ≠ []) (hsp : ∀ c ∈ kw, c ≠ ' ')
    (ts : List (List Char)) (r : List Char) :
    parseKwT kw (renderToks (kw :: ts) ++ r) = some (renderToks ts ++ r) := by
  have h := parseTok_append kw hk hsp (renderToks ts ++ r)
  simp only [renderToks_cons, List.append_assoc, List.cons_append] at *
  simp [parseKwT, h]

theorem parseListTN_tk {f : α → List (List Char)}
    {p : List Char → Option (α × List Char)} (xs : List α)
    (hx : ∀ x ∈ xs, ∀ ts r, p (renderToks (f x ++ ts) ++ r) = some (x, renderToks ts ++ r))
    (ts : List (List Char)) (r : List Char) :
    parseListTN p xs.length (renderToks (xs.flatMap f ++ ts) ++ r) =
      some (xs, renderToks ts ++ r) := by
  induction xs generalizing ts with
  | nil => rfl
  | cons x xs ih =>
    have hx1 := hx x (List.mem_cons_self x xs) (xs.flatMap f ++ ts) r
    have ih1 := ih (fun y hy ts r => hx y (List.mem_cons_of_mem x hy) ts r) ts
    simp only [List.length_cons, List.flatMap_cons, List.append_assoc, parseListTN,
      hx1, ih1]

theorem parseListT_tk {f : α → List (List Char)}
    {p : List Char → Option (α × List Char)} (xs : List α)
    (hx : ∀ x ∈ xs, ∀ ts r, p (renderToks (f x ++ ts) ++ r) = some (x, renderToks ts ++ r))
    (ts : List (List Char)) (r : List Char) :
    parseListT p (renderToks (tkList f xs ++ ts) ++ r) =
      some (xs, renderToks ts ++ r) := by
  simp only [parseListT, tkList, List.append_assoc, parseNatT_tk]
  exact parseListTN_tk xs hx ts r

theorem parseUseT_tk (u : Nat × Nat) (ts : List (List Char)) (r : List Char) :
    parseUseT (renderToks ((tkNat u.1 ++ tkNat u.2) ++ ts) ++ r) =
      some (u, renderToks ts ++ r) := by
  simp only [parseUseT, List.append_assoc, parseNatT_tk]

theorem parseSigT_tk (s : FuncSig) (hw : wfName s.name) (ts : List (List Char))
    (r : List Char) :
    parseSigT (renderToks (tkSig s ++ ts) ++ r) = some (s, renderToks ts ++ r) := by
  simp only [parseSigT, tkSig, List.append_assoc, parseNameT_tk s.name hw,
    parseListT_tk _ (fun n _ ts r => parseNatT_tk n ts r)]

theorem parseWorldT_tk (w : World) (hw : wfName w.name)
    (hi : ∀ s ∈ w.imports, wfName s) (he : ∀ s ∈ w.exports, wfName s)
    (ts : List (List Char)) (r : List Char) :
    parseWorldT (renderToks (tkWorld w ++ ts) ++ r) = some (w, renderToks ts ++ r) := by
  simp only [parseWorldT, tkWorld, List.append_assoc, parseNameT_tk w.name hw,
    parseListT_tk _ (fun s hs ts r => parseNameT_tk s (hi s hs) ts r),
    parseListT_tk _ (fun s hs ts r => parseNameT_tk s (he s hs) ts r)]

theorem parseIfaceT_tk (i : Iface) (hw : wfName i.name)
    (hf : ∀ f ∈ i.funcs, wfName f.name) (ts : List (List Char)) (r : List Char) :
    parseIfaceT (renderToks (tkIface i ++ ts) ++ r) = some (i, renderToks ts ++ r) := by
  simp only [parseIfaceT, tkIface, List.append_assoc, parseNameT_tk i.name hw,
    parseListT_tk _ (fun s hs ts r => parseSigT_tk s (hf s hs) ts r),
    parseListT_tk _ (fun u _ ts r => parseUseT_tk u ts r)]

theorem parsePackageT_tk (p : Package) (hp : wfPackage p) (ts : List (List Char))
    (r : List Char) :
    parsePackageT (renderToks (tkPackage p ++ ts) ++ r) =
      some (p, renderToks ts ++ r) := by
  obtain ⟨hn, hw, hi⟩ := hp
  simp only [parsePackageT, tkPackage, List.append_assoc, List.cons_append,
    List.nil_append,
    parseKwT_tk pkgKw (by decide) (by decide),
    parseNameT_tk p.name hn,
    parseListT_tk _ (fun w hwm ts r =>
      parseWorldT_tk w (hw w hwm).1 (hw w hwm).2.1 (hw w hwm).2.2 ts r),
    parseListT_tk _ (fun i him ts r =>
      parseIfaceT_tk i (hi i him).1 (hi i him).2 ts r)]

theorem parsePackageText_print (p : Package) (hp : wfPackage p) :
    parsePackageText (printPackageText p) = some p := by
  have h := parsePackageT_tk p hp [] []
  simp only [List.append_nil, renderToks, List.flatMap_nil] at h
  simp [parsePackageText, printPackageText, renderToks, h]

theorem parseAllTexts_printAll (ps : List Package) (h : ∀ p ∈ ps, wfPackage p) :
    parseAllTexts (ps.map printPackageText) = some ps := by
  induction ps with
  | nil => rfl
  | cons p ps ih =>
    simp [parseAllTexts, parsePackageText_print p (h p (by simp)),
      ih fun q hq => h q (by simp [hq])]

/-- C2: printing every package of a well-formed graph to text, re-parsing
the texts into a fresh graph in print order, and encoding the fresh graph
with the same version flag reproduces bytes identical to encoding the
original graph. -/
theorem text_roundtrip (v : Option Bool) (r : Resolve)
    (hw : wfNames r) (h1 : refsOk r = true) (hne : r.packages ≠ []) :
    ∃ r2 bs,
      reparse (printAll r) = some r2 ∧
      encodeWit v r (r.packages.length - 1) = .ok bs ∧
      encodeWit v r2 (r2.packages.length - 1) = .ok bs := by
  have hall : parseAllTexts (printAll r) = some r.packages :=
    parseAllTexts_printAll r.packages hw
  have hre : reparse (printAll r) = some r := by
    simp [reparse, hall]
  have hlt : r.packages.length - 1 < r.packages.length := by
    have : r.packages.length ≠ 0 := by
      simpa [List.length_eq_zero] using hne
    omega
  obtain ⟨bs, he, _⟩ := decodeWit_encodeWit v r (r.packages.length - 1) h1 hlt
  exact ⟨r, bs, hre, he, he⟩

/-- Witness for C2 at the concrete sample graph. -/
theorem text_roundtrip_witness :
    ∃ r2 bs,
      reparse (printAll sampleResolve) = some r2 ∧
      encodeWit (some false) sampleResolve (sampleResolve.packages.length - 1) = .ok bs ∧
      encodeWit (some false) r2 (r2.packages.length - 1) = .ok bs :=
  text_roundtrip (some false) sampleResolve (by decide) (by decide) (by decide)

end WasmTools
